import Mathlib

/-!
Verification of the symbolic polynomial expression algebra of the SCIP python
interface layer (`LinExpr` / `LinCons`).  The repository ships only the test
suite and example scripts for this algebra; the implementation itself lives in
the cython module `pyscipopt.scip`, which is not part of the source tree.
All core definitions below are therefore modelled from the specification's
description of the Term/Expression Engine and the Constraint Builder, and the
theorems check the specified behaviour (which the shipped tests exercise)
against that model.

Variables are opaque identifiers "with a stable integer id assigned at
variable creation", so we model a variable as its id (`Nat`); the id order is
the Variable total order.  Coefficients are modelled as rationals (`ℚ`): the
spec treats them as real numbers and every value appearing in the claims is
rational.  A `Term` is a tuple of variables kept sorted by the variable order;
an Expression's term mapping is an unordered dictionary from terms to
coefficients, which we represent canonically as an association list kept
sorted by a fixed total order on term keys (shortlex), with zero coefficients
pruned — the spec explicitly allows pruning ("a coefficient of exactly 0 MAY
be pruned but its absence must be treated as 0 on lookup").  With this
canonical representation, equality of the association lists coincides with
equality of the dictionaries.
-/

namespace ScipExpr

/-- A decision variable, identified by its stable integer id. -/
abbrev Var := Nat

/-- A monomial: a tuple of variables, canonically sorted by the variable
total order.  The empty tuple is the constant term. -/
abbrev Term := List Var

/-- Modelled from the spec: sorting a variable tuple "using the Variable
total order" (canonicalization of multiplicative term keys). -/
def sortTerm (t : List Var) : Term :=
  List.insertionSort (fun a b => a ≤ b) t

/-- Modelled from the spec: "A multiplicative term is built by merging two
variable-tuples and sorting the result using the Variable total order". -/
def mergeTerms (t1 t2 : Term) : Term :=
  sortTerm (t1 ++ t2)

/-- Lexicographic comparison of variable tuples (ties on the prefix). -/
def lexLt : List Var → List Var → Bool
  | [], [] => false
  | [], _ :: _ => true
  | _ :: _, [] => false
  | a :: as, b :: bs => if a < b then true else if b < a then false else lexLt as bs

/-- Shortlex total order on term keys, used only to keep the association-list
representation of the (unordered) term dictionary canonical. -/
def termLt (t1 t2 : Term) : Bool :=
  if t1.length < t2.length then true
  else if t2.length < t1.length then false
  else lexLt t1 t2

/-- Add a single monomial `c * t` into a canonical term list: coefficients of
colliding keys are summed and a resulting zero coefficient is dropped
(the pruning the spec allows). -/
def addMono (t : Term) (c : ℚ) : List (Term × ℚ) → List (Term × ℚ)
  | [] => if c = 0 then [] else [(t, c)]
  | (t2, c2) :: rest =>
    if t = t2 then
      (if c2 + c = 0 then rest else (t, c2 + c) :: rest)
    else if termLt t t2 then
      (if c = 0 then (t2, c2) :: rest else (t, c) :: (t2, c2) :: rest)
    else
      (t2, c2) :: addMono t c rest

/-- Modelled from the spec: an Expression is "a mapping from Term to
real-valued coefficient (insertion/order irrelevant; keys unique)", held here
as a canonical association list (`terms` is the dictionary). -/
structure LinExpr where
  terms : List (Term × ℚ)
deriving DecidableEq

/-- Dictionary lookup with default 0 (`dict.get(key, 0.0)`). -/
def lookupCoeff : List (Term × ℚ) → Term → ℚ
  | [], _ => 0
  | p :: ps, t => if p.1 = t then p.2 else lookupCoeff ps t

/-- Modelled from the spec: coefficient lookup "returns 0.0 for any term
absent from the mapping — lookup never fails". -/
def LinExpr.coeff (e : LinExpr) (t : Term) : ℚ :=
  lookupCoeff e.terms t

/-- The constant expression `c` (a bare scalar is "a term with the empty
tuple key"). -/
def LinExpr.const (c : ℚ) : LinExpr :=
  ⟨addMono [] c []⟩

/-- The expression consisting of a single variable with coefficient 1. -/
def LinExpr.var (x : Var) : LinExpr :=
  ⟨[([x], 1)]⟩

/-- Fold a list of monomials into a canonical term list. -/
def addTerms (acc : List (Term × ℚ)) : List (Term × ℚ) → List (Term × ℚ)
  | [] => acc
  | p :: ps => addTerms (addMono p.1 p.2 acc) ps

/-- Modelled from the spec: "Addition of two Expressions: mapping-union of
terms with coefficient addition; a resulting zero coefficient may be
dropped." -/
def LinExpr.add (e1 e2 : LinExpr) : LinExpr :=
  ⟨addTerms e1.terms e2.terms⟩

/-- Modelled from the spec: "Negation: map coefficient ↦ −coefficient over
all terms." -/
def LinExpr.neg (e : LinExpr) : LinExpr :=
  ⟨e.terms.map (fun p => (p.1, -p.2))⟩

/-- Modelled from the spec: "Subtraction: addition of negation." -/
def LinExpr.sub (e1 e2 : LinExpr) : LinExpr :=
  e1.add e2.neg

/-- Modelled from the spec: "Scalar multiplication (Expression × real, either
order): scale every coefficient." -/
def LinExpr.smul (c : ℚ) (e : LinExpr) : LinExpr :=
  ⟨e.terms.map (fun p => (p.1, c * p.2))⟩

/-- Distribute one monomial `c1 * t1` over a term list, accumulating into a
canonical list. -/
def distribOne (t1 : Term) (c1 : ℚ) : List (Term × ℚ) → List (Term × ℚ) → List (Term × ℚ)
  | [], acc => acc
  | (t2, c2) :: ps, acc => distribOne t1 c1 ps (addMono (mergeTerms t1 t2) (c1 * c2) acc)

/-- Distribute every monomial of the first list over the second list. -/
def distribAll : List (Term × ℚ) → List (Term × ℚ) → List (Term × ℚ) → List (Term × ℚ)
  | [], _, acc => acc
  | (t1, c1) :: ps, ts2, acc => distribAll ps ts2 (distribOne t1 c1 ts2 acc)

/-- Modelled from the spec: "Expression × Expression: distribute — for every
pair of terms (t1,c1) from the left and (t2,c2) from the right, produce a term
`canonical_merge(t1,t2)` with coefficient `c1*c2`, summing collisions." -/
def LinExpr.mul (e1 e2 : LinExpr) : LinExpr :=
  ⟨distribAll e1.terms e2.terms []⟩

/-- Exponentiation by a natural number: "`expr ** 0` yields the
multiplicative identity expression (constant 1)", positive powers are
"repeated self-multiplication using the Expression × Expression rule". -/
def LinExpr.powNat (e : LinExpr) : Nat → LinExpr
  | 0 => LinExpr.const 1
  | n + 1 => (LinExpr.powNat e n).mul e

/-- Modelled from the spec: "Exponentiation `expr ** k`: fails with
`UnsupportedOperation` when k is not a non-negative integer (explicitly:
fractional or negative exponents are rejected)". -/
def LinExpr.pow (e : LinExpr) (k : ℚ) : Except String LinExpr :=
  if k.den = 1 ∧ 0 ≤ k.num then Except.ok (e.powNat k.num.toNat)
  else Except.error "NotImplementedError: fractional or negative exponent"

/-- Modelled from the spec: "`degree()`: returns the maximum term-tuple
length among non-zero-coefficient terms; an empty or all-constant expression
has degree 0." -/
def LinExpr.degree (e : LinExpr) : Nat :=
  ((e.terms.filter (fun p => decide (p.2 ≠ 0))).map (fun p => p.1.length)).foldl Nat.max 0

/-- Modelled from the spec: a Constraint is "derived from an Expression plus
one or two bound values", with optional lower bound `lhs`, optional upper
bound `rhs`, and the residual expression `expr` ("the expression with any
constant term folded into the bounds"). -/
structure LinCons where
  expr : LinExpr
  lhs : Option ℚ
  rhs : Option ℚ
deriving DecidableEq

/-- Zero the constant term in the residual expression (in the pruned
canonical representation, drop the empty-tuple key). -/
def stripConst (e : LinExpr) : LinExpr :=
  ⟨e.terms.filter (fun p => decide (p.1 ≠ []))⟩

/-- Modelled from the spec: "`e <= k` for a numeric `k`: extract the constant
term from `e` (subtract `e[()]` from `k`, zero it in the residual expression)
and produce a one-sided Constraint with only `rhs` set to the adjusted
bound." -/
def LinExpr.leCons (e : LinExpr) (k : ℚ) : LinCons :=
  ⟨stripConst e, none, some (k - e.coeff [])⟩

/-- Modelled from the spec: `e >= k` sets only `lhs` to the adjusted bound. -/
def LinExpr.geCons (e : LinExpr) (k : ℚ) : LinCons :=
  ⟨stripConst e, some (k - e.coeff []), none⟩

/-- Modelled from the spec: "`e == k`: produce a Constraint with
`lhs == rhs == adjusted_k`." -/
def LinExpr.eqCons (e : LinExpr) (k : ℚ) : LinCons :=
  ⟨stripConst e, some (k - e.coeff []), some (k - e.coeff [])⟩

/-- Modelled from the spec: "Two Expressions compared (`e1 <= e2`): normalize
to `(e1 - e2) <= 0` and apply the single-expression rule." -/
def LinExpr.leExpr (e1 e2 : LinExpr) : LinCons :=
  (e1.sub e2).leCons 0

/-- Modelled from the spec: ranging combines "a bound literal with an
already-built one-sided Constraint's embedded expression".  Applying an upper
bound (`cons <= k`, or equivalently `k >= cons`) to a Constraint whose `rhs`
is already set "must fail with `TypeError`"; in particular ranging an
already-ranged Constraint fails. -/
def LinCons.withUpper (c : LinCons) (k : ℚ) : Except String LinCons :=
  match c.rhs with
  | some _ => Except.error "TypeError: cannot set upper bound twice"
  | none => Except.ok ⟨c.expr, c.lhs, some k⟩

/-- Modelled from the spec: applying a lower bound (`k <= cons`) to a
Constraint whose `lhs` is already set fails with `TypeError`. -/
def LinCons.withLower (c : LinCons) (k : ℚ) : Except String LinCons :=
  match c.lhs with
  | some _ => Except.error "TypeError: cannot set lower bound twice"
  | none => Except.ok ⟨c.expr, some k, c.rhs⟩

/-! ### Helper lemmas -/

theorem sortTerm_eq_of_perm {l1 l2 : List Var} (h : l1.Perm l2) :
    sortTerm l1 = sortTerm l2 :=
  List.eq_of_perm_of_sorted
    ((List.perm_insertionSort _ l1).trans (h.trans (List.perm_insertionSort _ l2).symm))
    (List.sorted_insertionSort _ l1) (List.sorted_insertionSort _ l2)

theorem mergeTerms_comm (t1 t2 : Term) : mergeTerms t1 t2 = mergeTerms t2 t1 :=
  sortTerm_eq_of_perm List.perm_append_comm

theorem lookupCoeff_eq_zero {l : List (Term × ℚ)} {t : Term}
    (h : ∀ p ∈ l, p.1 ≠ t) : lookupCoeff l t = 0 := by
  induction l with
  | nil => rfl
  | cons p ps ih =>
    rw [lookupCoeff, if_neg (h p (List.mem_cons_self p ps))]
    exact ih fun q hq => h q (List.mem_cons_of_mem p hq)

theorem mem_keys_of_lookupCoeff_ne_zero {l : List (Term × ℚ)} {t : Term}
    (h : lookupCoeff l t ≠ 0) : t ∈ l.map Prod.fst := by
  induction l with
  | nil => exact absurd rfl h
  | cons p ps ih =>
    rw [lookupCoeff] at h
    by_cases hp : p.1 = t
    · exact List.mem_map.mpr ⟨p, List.mem_cons_self p ps, hp⟩
    · rw [if_neg hp] at h
      exact List.mem_cons_of_mem _ (ih h)

theorem lookupCoeff_filter_ne {l : List (Term × ℚ)} {t : Term} (h : t ≠ []) :
    lookupCoeff (l.filter (fun p => decide (p.1 ≠ []))) t = lookupCoeff l t := by
  induction l with
  | nil => rfl
  | cons p ps ih =>
    by_cases hp : p.1 = []
    · have hpt : p.1 ≠ t := fun hc => h (hc.symm.trans hp)
      rw [List.filter_cons, if_neg (by simp [hp]), ih, lookupCoeff, if_neg hpt]
    · rw [List.filter_cons, if_pos (by simp [hp]), lookupCoeff, lookupCoeff, ih]

theorem lookupCoeff_filter_nil {l : List (Term × ℚ)} :
    lookupCoeff (l.filter (fun p => decide (p.1 ≠ []))) [] = 0 := by
  apply lookupCoeff_eq_zero
  intro p hp
  have := List.of_mem_filter hp
  simpa using this

theorem stripConst_coeff_ne {e : LinExpr} {t : Term} (h : t ≠ []) :
    (stripConst e).coeff t = e.coeff t :=
  lookupCoeff_filter_ne h

theorem stripConst_coeff_nil (e : LinExpr) : (stripConst e).coeff [] = 0 :=
  lookupCoeff_filter_nil

theorem mul_var_terms (x y : Var) :
    ((LinExpr.var x).mul (LinExpr.var y)).terms = [(mergeTerms [x] [y], 1)] := by
  norm_num [LinExpr.mul, LinExpr.var, distribAll, distribOne, addMono]

theorem mergeTerms_single_le {x y : Var} (h : x ≤ y) : mergeTerms [x] [y] = [x, y] := by
  simp [mergeTerms, sortTerm, List.insertionSort, List.orderedInsert, h]

theorem mergeTerms_single_self (x : Var) : mergeTerms [x] [x] = [x, x] := by
  simp [mergeTerms, sortTerm, List.insertionSort, List.orderedInsert]

theorem seed_le_foldl_max (b : Nat) (l : List Nat) : b ≤ l.foldl Nat.max b := by
  induction l generalizing b with
  | nil => exact le_refl b
  | cons a as ih => exact le_trans (Nat.le_max_left b a) (ih (Nat.max b a))

theorem mem_le_foldl_max {l : List Nat} {a : Nat} (h : a ∈ l) (b : Nat) : a ≤ l.foldl Nat.max b := by
  induction l generalizing b with
  | nil => cases h
  | cons c cs ih =>
    rcases List.mem_cons.mp h with hc | h2
    · subst hc
      exact le_trans (Nat.le_max_right b a) (seed_le_foldl_max _ cs)
    · exact ih h2 _

/-! ### Claim theorems -/

/-- C1: multiplication of expressions is commutative by canonicalization:
for every pair of variables, `x*y` and `y*x` have identical term mappings,
the product term's key is the pair of variables sorted by the variable total
order, and `x*x` yields the key `(x,x)`, distinct from `(x,)`. -/
theorem mul_commutative_canonical (x y : Var) :
    ((LinExpr.var x).mul (LinExpr.var y)).terms = ((LinExpr.var y).mul (LinExpr.var x)).terms
    ∧ (x < y → ((LinExpr.var x).mul (LinExpr.var y)).terms = [([x, y], 1)])
    ∧ (y < x → ((LinExpr.var x).mul (LinExpr.var y)).terms = [([y, x], 1)])
    ∧ ((LinExpr.var x).mul (LinExpr.var x)).terms = [([x, x], 1)]
    ∧ ([x, x] : Term) ≠ [x] := by
  refine ⟨?_, ?_, ?_, ?_, by simp⟩
  · rw [mul_var_terms, mul_var_terms, mergeTerms_comm]
  · intro h
    rw [mul_var_terms, mergeTerms_single_le h.le]
  · intro h
    rw [mul_var_terms, mergeTerms_comm, mergeTerms_single_le h.le]
  · rw [mul_var_terms, mergeTerms_single_self]

/-- Witness for C1 at x = 0, y = 1. -/
theorem mul_commutative_canonical_witness :
    ((LinExpr.var 0).mul (LinExpr.var 1)).terms = ((LinExpr.var 1).mul (LinExpr.var 0)).terms
    ∧ ((LinExpr.var 0).mul (LinExpr.var 1)).terms = [([0, 1], 1)] :=
  ⟨(mul_commutative_canonical 0 1).1, (mul_commutative_canonical 0 1).2.1 (by decide)⟩

/-- C4: coefficient lookup on an Expression is total: for every Expression
and every key, a key absent from the term mapping resolves to 0.0 (and a
nonzero coefficient can only come from a stored entry) — lookup never
raises. -/
theorem coeff_total_default_zero (e : LinExpr) (t : Term) :
    (t ∉ e.terms.map Prod.fst → e.coeff t = 0)
    ∧ (e.coeff t ≠ 0 → t ∈ e.terms.map Prod.fst) := by
  constructor
  · intro habs
    apply lookupCoeff_eq_zero
    intro p hp hc
    exact habs (List.mem_map.mpr ⟨p, hp, hc⟩)
  · exact mem_keys_of_lookupCoeff_ne_zero

/-- Witness for C4 at a concrete expression and absent key. -/
theorem coeff_total_default_zero_witness :
    ([1] ∉ (LinExpr.mk [([0], 1)]).terms.map Prod.fst)
    ∧ (LinExpr.mk [([0], 1)]).coeff [1] = 0 :=
  ⟨by decide, (coeff_total_default_zero (LinExpr.mk [([0], 1)]) [1]).1 (by decide)⟩

/-- C6: `expr ** 0` is the multiplicative identity expression (constant 1)
for every expr, even a non-constant one, and `x + (y+1)**0` has a term
mapping identical to that of `x + 1`. -/
theorem pow_zero_is_one (e : LinExpr) (x y : Var) :
    e.pow 0 = Except.ok (LinExpr.const 1)
    ∧ e.powNat 0 = LinExpr.const 1
    ∧ ((LinExpr.var x).add (((LinExpr.var y).add (LinExpr.const 1)).powNat 0)).terms
        = ((LinExpr.var x).add (LinExpr.const 1)).terms := by
  refine ⟨?_, rfl, rfl⟩
  rw [LinExpr.pow, if_pos ⟨rfl, le_refl 0⟩]
  rfl

/-- C5: exponentiation by any exponent that is not a non-negative integer is
rejected with the unsupported-operation error; in particular `expr ** 0.5`
and `expr ** (-1)` raise and produce no expression. -/
theorem pow_invalid_exponent (e : LinExpr) (k : ℚ)
    (h : k.den ≠ 1 ∨ k.num < 0) :
    (e.pow k).toOption = none
    ∧ (e.pow (1/2)).toOption = none
    ∧ (e.pow (-1)).toOption = none := by
  refine ⟨?_, ?_, ?_⟩
  · rw [LinExpr.pow, if_neg]
    · rfl
    · rcases h with h | h
      · exact fun hc => h hc.1
      · exact fun hc => absurd hc.2 (not_le.mpr h)
  · rw [LinExpr.pow, if_neg (by norm_num)]
    rfl
  · rw [LinExpr.pow, if_neg (by norm_num)]
    rfl

/-- C7: exponentiation by a positive integer equals repeated
self-multiplication under the distributive rule: `(x**2).terms ==
(x*x).terms`, `((x+3)**2).terms == (x**2 + 6*x + 9).terms`, and
`(x*x*x + 2*y*y).terms == (x**3 + 2*y**2).terms` for all variables x, y. -/
theorem pow_is_repeated_mul (x y : Var) :
    ((LinExpr.var x).powNat 2).terms = ((LinExpr.var x).mul (LinExpr.var x)).terms
    ∧ (((LinExpr.var x).add (LinExpr.const 3)).powNat 2).terms
        = ((((LinExpr.var x).powNat 2).add (LinExpr.smul 6 (LinExpr.var x))).add
            (LinExpr.const 9)).terms
    ∧ ((((LinExpr.var x).mul (LinExpr.var x)).mul (LinExpr.var x)).add
          (LinExpr.smul 2 ((LinExpr.var y).mul (LinExpr.var y)))).terms
        = (((LinExpr.var x).powNat 3).add (LinExpr.smul 2 ((LinExpr.var y).powNat 2))).terms := by
  refine ⟨?_, ?_, ?_⟩ <;>
    (norm_num [LinExpr.powNat, LinExpr.mul, LinExpr.var, LinExpr.add, LinExpr.smul, LinExpr.const,
      distribAll, distribOne, addTerms, addMono, mergeTerms, sortTerm, termLt, lexLt,
      List.insertionSort, List.orderedInsert]
     try simp)

/-- C8: degree returns the maximum term-tuple length among terms with
non-zero coefficient (every such term's length is bounded by the degree),
and the shipped examples: an empty expression and an all-constant expression
have degree 0, `x+1` has degree 1, `x*x+y-2` has degree 2, and
`(x+1)*(y+1)*(x-1)` has degree 3. -/
theorem degree_max_term_length (x y : Var) :
    (LinExpr.mk []).degree = 0
    ∧ ((LinExpr.mk []).add (LinExpr.const 3)).degree = 0
    ∧ ((LinExpr.var x).add (LinExpr.const 1)).degree = 1
    ∧ ((((LinExpr.var x).mul (LinExpr.var x)).add (LinExpr.var y)).sub
        (LinExpr.const 2)).degree = 2
    ∧ ((((LinExpr.var x).add (LinExpr.const 1)).mul ((LinExpr.var y).add (LinExpr.const 1))).mul
        ((LinExpr.var x).sub (LinExpr.const 1))).degree = 3
    ∧ (∀ (e : LinExpr), ∀ p ∈ e.terms, p.2 ≠ 0 → p.1.length ≤ e.degree) := by
  refine ⟨rfl, ?_, ?_, ?_, ?_, ?_⟩
  · norm_num [LinExpr.degree, LinExpr.add, LinExpr.const, addTerms, addMono]
  · norm_num [LinExpr.degree, LinExpr.var, LinExpr.add, LinExpr.const, addTerms, addMono,
      termLt, lexLt]
  · norm_num [LinExpr.degree, LinExpr.mul, LinExpr.var, LinExpr.add, LinExpr.sub, LinExpr.neg,
      LinExpr.const, distribAll, distribOne, addTerms, addMono, mergeTerms, sortTerm, termLt,
      lexLt, List.insertionSort, List.orderedInsert]
  · rcases Nat.lt_trichotomy x y with h | h | h
    · norm_num [LinExpr.degree, LinExpr.mul, LinExpr.var, LinExpr.add, LinExpr.sub, LinExpr.neg,
        LinExpr.const, distribAll, distribOne, addTerms, addMono, mergeTerms, sortTerm, termLt,
        lexLt, List.insertionSort, List.orderedInsert, h, h.le, h.ne, h.ne', Nat.lt_asymm h,
        not_le.mpr h]
      simp
    · subst h
      norm_num [LinExpr.degree, LinExpr.mul, LinExpr.var, LinExpr.add, LinExpr.sub, LinExpr.neg,
        LinExpr.const, distribAll, distribOne, addTerms, addMono, mergeTerms, sortTerm, termLt,
        lexLt, List.insertionSort, List.orderedInsert]
      simp
    · norm_num [LinExpr.degree, LinExpr.mul, LinExpr.var, LinExpr.add, LinExpr.sub, LinExpr.neg,
        LinExpr.const, distribAll, distribOne, addTerms, addMono, mergeTerms, sortTerm, termLt,
        lexLt, List.insertionSort, List.orderedInsert, h, h.le, h.ne, h.ne', Nat.lt_asymm h,
        not_le.mpr h]
      simp
  · intro e p hp hc
    have h1 : p ∈ e.terms.filter (fun q => decide (q.2 ≠ 0)) :=
      List.mem_filter.mpr ⟨hp, by simpa using hc⟩
    have h2 : p.1.length ∈ (e.terms.filter (fun q => decide (q.2 ≠ 0))).map
        (fun q => q.1.length) :=
      List.mem_map.mpr ⟨p, h1, rfl⟩
    exact mem_le_foldl_max h2 0

/-- Witness for C8 at x = 0, y = 1, checking the bound conjunct on a stored
quadratic term. -/
theorem degree_max_term_length_witness :
    ((LinExpr.var 0).add (LinExpr.const 1)).degree = 1
    ∧ ([0, 0] : Term).length ≤ (LinExpr.mk [([0, 0], 1)]).degree :=
  ⟨(degree_max_term_length 0 1).2.2.1,
   (degree_max_term_length 0 1).2.2.2.2.2 (LinExpr.mk [([0, 0], 1)]) ([0, 0], 1)
     (by decide) (by decide)⟩

/-- Witness for C5 at `(x+1) ** (-1)`. -/
theorem pow_invalid_exponent_witness :
    ((((LinExpr.var 0).add (LinExpr.const 1)).pow (-1)).toOption = none)
    ∧ ((((LinExpr.var 0).add (LinExpr.const 1)).pow (1/2)).toOption = none)
    ∧ ((((LinExpr.var 0).add (LinExpr.const 1)).pow (-1)).toOption = none) :=
  pow_invalid_exponent ((LinExpr.var 0).add (LinExpr.const 1)) (-1) (Or.inr (by decide))

/-- The expression `x + 2*y` over the two fixture variables (ids 0 and 1),
as built in the shipped tests. -/
def xp2y : LinExpr :=
  (LinExpr.var 0).add (LinExpr.smul 2 (LinExpr.var 1))

/-- The expression `x + 2*y - 3` over the fixture variables. -/
def xp2ym3 : LinExpr :=
  xp2y.sub (LinExpr.const 3)

/-- C2: `e <= k` (resp. `e >= k`) produces a one-sided Constraint whose rhs
(resp. lhs) is k minus e's constant coefficient, with the other bound unset
and a residual expression agreeing with e on every non-constant term but
with constant coefficient 0; in particular `5 <= x+2*y-3` yields lhs 8,
rhs unset, coefficients 1 and 2 and constant 0. -/
theorem one_sided_constant_folding (e : LinExpr) (k : ℚ) :
    (e.leCons k).rhs = some (k - e.coeff []) ∧ (e.leCons k).lhs = none
    ∧ (e.geCons k).lhs = some (k - e.coeff []) ∧ (e.geCons k).rhs = none
    ∧ (∀ t, t ≠ [] →
        (e.leCons k).expr.coeff t = e.coeff t ∧ (e.geCons k).expr.coeff t = e.coeff t)
    ∧ (e.leCons k).expr.coeff [] = 0 ∧ (e.geCons k).expr.coeff [] = 0
    ∧ (xp2ym3.geCons 5).lhs = some 8
    ∧ (xp2ym3.geCons 5).rhs = none
    ∧ (xp2ym3.geCons 5).expr.coeff [0] = 1
    ∧ (xp2ym3.geCons 5).expr.coeff [1] = 2
    ∧ (xp2ym3.geCons 5).expr.coeff [] = 0 := by
  refine ⟨rfl, rfl, rfl, rfl,
    fun t ht => ⟨stripConst_coeff_ne ht, stripConst_coeff_ne ht⟩,
    stripConst_coeff_nil e, stripConst_coeff_nil e, ?_, rfl, ?_, ?_, ?_⟩ <;>
    norm_num [xp2ym3, xp2y, LinExpr.geCons, stripConst, LinExpr.coeff, lookupCoeff,
      LinExpr.add, LinExpr.smul, LinExpr.sub, LinExpr.neg, LinExpr.const, LinExpr.var,
      addTerms, addMono, termLt, lexLt, List.filter]

/-- Witness for C2 at `e = x`, `k = 5`, non-constant term `(x,)`. -/
theorem one_sided_constant_folding_witness :
    ((LinExpr.var 0).leCons 5).rhs = some (5 - (LinExpr.var 0).coeff [])
    ∧ ((LinExpr.var 0).leCons 5).expr.coeff [0] = (LinExpr.var 0).coeff [0] :=
  ⟨(one_sided_constant_folding (LinExpr.var 0) 5).1,
   ((one_sided_constant_folding (LinExpr.var 0) 5).2.2.2.2.1 [0] (by decide)).1⟩

/-- C3: ranging contract (raises-iff): a second bound on the unset opposite
side of a one-sided Constraint succeeds and yields both bounds over the same
residual expression (`3 <= (x+2*y <= 5)` and `(x+2*y >= 3) <= 5` give
lhs 3, rhs 5); applying the second bound on an already-set side — as in
`(x+2*y <= 5) <= 3` or `3 >= (x+2*y <= 5)`, both of which set an upper bound
on a Constraint whose rhs is set — raises a TypeError, and so does ranging
a Constraint that already has both bounds. -/
theorem ranged_raises_iff :
    (∀ (c : LinCons) (k : ℚ),
      (c.rhs = none → c.withUpper k = Except.ok (LinCons.mk c.expr c.lhs (some k)))
      ∧ (c.rhs ≠ none → (c.withUpper k).toOption = none)
      ∧ (c.lhs = none → c.withLower k = Except.ok (LinCons.mk c.expr (some k) c.rhs))
      ∧ (c.lhs ≠ none → (c.withLower k).toOption = none))
    ∧ ((xp2y.leCons 5).withLower 3
        = Except.ok (LinCons.mk (xp2y.leCons 5).expr (some 3) (some 5)))
    ∧ ((xp2y.geCons 3).withUpper 5
        = Except.ok (LinCons.mk (xp2y.geCons 3).expr (some 3) (some 5)))
    ∧ (((xp2y.leCons 5).withUpper 3).toOption = none)
    ∧ (∀ (k : ℚ),
        ((LinCons.mk (xp2y.leCons 5).expr (some 3) (some 5)).withUpper k).toOption = none
        ∧ ((LinCons.mk (xp2y.leCons 5).expr (some 3) (some 5)).withLower k).toOption = none) := by
  refine ⟨?_, ?_, ?_, rfl, fun k => ⟨rfl, rfl⟩⟩
  · intro c k
    refine ⟨?_, ?_, ?_, ?_⟩
    · intro h
      simp [LinCons.withUpper, h]
    · intro h
      cases hr : c.rhs with
      | none => exact absurd hr h
      | some v => simp [LinCons.withUpper, hr, Except.toOption]
    · intro h
      simp [LinCons.withLower, h]
    · intro h
      cases hl : c.lhs with
      | none => exact absurd hl h
      | some v => simp [LinCons.withLower, hl, Except.toOption]
  · norm_num [xp2y, LinExpr.leCons, LinCons.withLower, stripConst, LinExpr.coeff, lookupCoeff,
      LinExpr.add, LinExpr.smul, LinExpr.var, addTerms, addMono, termLt, lexLt]
  · norm_num [xp2y, LinExpr.geCons, LinCons.withUpper, stripConst, LinExpr.coeff, lookupCoeff,
      LinExpr.add, LinExpr.smul, LinExpr.var, addTerms, addMono, termLt, lexLt]

/-- Witness for C3: ranging an unbounded Constraint succeeds, ranging a
fully-ranged Constraint fails. -/
theorem ranged_raises_iff_witness :
    ((LinCons.mk (LinExpr.mk []) none none).withUpper 7
      = Except.ok (LinCons.mk (LinExpr.mk []) none (some 7)))
    ∧ (((LinCons.mk (xp2y.leCons 5).expr (some 3) (some 5)).withUpper 7).toOption = none) :=
  ⟨(ranged_raises_iff.1 (LinCons.mk (LinExpr.mk []) none none) 7).1 rfl,
   (ranged_raises_iff.2.2.2.2 7).1⟩

/-- C9: comparing two Expressions `e1 <= e2` is normalization to
`(e1 - e2) <= 0` under the single-expression rule; for variables y and x the
constraint `y <= x` carries the coefficients of `y - x` as its residual
expression, with rhs 0 and lhs unset. -/
theorem le_between_exprs (x y : Var) :
    (∀ e1 e2 : LinExpr, e1.leExpr e2 = (e1.sub e2).leCons 0)
    ∧ ((LinExpr.var y).leExpr (LinExpr.var x)).rhs = some 0
    ∧ ((LinExpr.var y).leExpr (LinExpr.var x)).lhs = none
    ∧ (∀ t, ((LinExpr.var y).leExpr (LinExpr.var x)).expr.coeff t
        = ((LinExpr.var y).sub (LinExpr.var x)).coeff t)
    ∧ (x ≠ y → ((LinExpr.var y).leExpr (LinExpr.var x)).expr.coeff [y] = 1
        ∧ ((LinExpr.var y).leExpr (LinExpr.var x)).expr.coeff [x] = -1) := by
  have hnil : ((LinExpr.var y).sub (LinExpr.var x)).coeff [] = 0 := by
    rcases Nat.lt_trichotomy x y with h | h | h
    · norm_num [LinExpr.sub, LinExpr.var, LinExpr.neg, LinExpr.add, addTerms, addMono,
        termLt, lexLt, LinExpr.coeff, lookupCoeff, h, h.ne, h.ne', Nat.lt_asymm h]
    · subst h
      norm_num [LinExpr.sub, LinExpr.var, LinExpr.neg, LinExpr.add, addTerms, addMono,
        termLt, lexLt, LinExpr.coeff, lookupCoeff]
    · norm_num [LinExpr.sub, LinExpr.var, LinExpr.neg, LinExpr.add, addTerms, addMono,
        termLt, lexLt, LinExpr.coeff, lookupCoeff, h, h.ne, h.ne', Nat.lt_asymm h]
  refine ⟨fun e1 e2 => rfl, ?_, rfl, ?_, ?_⟩
  · show some (0 - ((LinExpr.var y).sub (LinExpr.var x)).coeff []) = some 0
    rw [hnil, sub_zero]
  · intro t
    by_cases ht : t = []
    · subst ht
      show (stripConst ((LinExpr.var y).sub (LinExpr.var x))).coeff [] = _
      rw [stripConst_coeff_nil, hnil]
    · exact stripConst_coeff_ne ht
  · intro hxy
    have hy2 : (stripConst ((LinExpr.var y).sub (LinExpr.var x))).coeff [y]
        = ((LinExpr.var y).sub (LinExpr.var x)).coeff [y] := stripConst_coeff_ne (by simp)
    have hx2 : (stripConst ((LinExpr.var y).sub (LinExpr.var x))).coeff [x]
        = ((LinExpr.var y).sub (LinExpr.var x)).coeff [x] := stripConst_coeff_ne (by simp)
    refine ⟨?_, ?_⟩ <;> rcases Nat.lt_trichotomy x y with h | h | h
    · show (stripConst ((LinExpr.var y).sub (LinExpr.var x))).coeff [y] = 1
      rw [hy2]
      norm_num [LinExpr.sub, LinExpr.var, LinExpr.neg, LinExpr.add, addTerms, addMono,
        termLt, lexLt, LinExpr.coeff, lookupCoeff, h, h.ne, h.ne', Nat.lt_asymm h]
    · exact absurd h hxy
    · show (stripConst ((LinExpr.var y).sub (LinExpr.var x))).coeff [y] = 1
      rw [hy2]
      norm_num [LinExpr.sub, LinExpr.var, LinExpr.neg, LinExpr.add, addTerms, addMono,
        termLt, lexLt, LinExpr.coeff, lookupCoeff, h, h.ne, h.ne', Nat.lt_asymm h]
    · show (stripConst ((LinExpr.var y).sub (LinExpr.var x))).coeff [x] = -1
      rw [hx2]
      norm_num [LinExpr.sub, LinExpr.var, LinExpr.neg, LinExpr.add, addTerms, addMono,
        termLt, lexLt, LinExpr.coeff, lookupCoeff, h, h.ne, h.ne', Nat.lt_asymm h]
    · exact absurd h hxy
    · show (stripConst ((LinExpr.var y).sub (LinExpr.var x))).coeff [x] = -1
      rw [hx2]
      norm_num [LinExpr.sub, LinExpr.var, LinExpr.neg, LinExpr.add, addTerms, addMono,
        termLt, lexLt, LinExpr.coeff, lookupCoeff, h, h.ne, h.ne', Nat.lt_asymm h]

/-- Witness for C9 at x = 0, y = 1. -/
theorem le_between_exprs_witness :
    ((LinExpr.var 1).leExpr (LinExpr.var 0)).rhs = some 0
    ∧ ((LinExpr.var 1).leExpr (LinExpr.var 0)).expr.coeff [1] = 1
    ∧ ((LinExpr.var 1).leExpr (LinExpr.var 0)).expr.coeff [0] = -1 :=
  ⟨(le_between_exprs 0 1).2.1,
   ((le_between_exprs 0 1).2.2.2.2 (by decide)).1,
   ((le_between_exprs 0 1).2.2.2.2 (by decide)).2⟩

/-- C10: arithmetic composition introduces no spurious or duplicate entries:
`x**2 + x + 1` stores exactly the three terms `(x,x)`, `(x,)` and `()`, so
the term mapping has size 3 and holds no zero-coefficient placeholders. -/
theorem no_spurious_terms (x : Var) :
    ((((LinExpr.var x).powNat 2).add (LinExpr.var x)).add (LinExpr.const 1)).terms
        = [([], 1), ([x], 1), ([x, x], 1)]
    ∧ ((((LinExpr.var x).powNat 2).add (LinExpr.var x)).add (LinExpr.const 1)).terms.length = 3
    ∧ (∀ p ∈ ((((LinExpr.var x).powNat 2).add (LinExpr.var x)).add (LinExpr.const 1)).terms,
        p.2 ≠ 0) := by
  have hterms :
      ((((LinExpr.var x).powNat 2).add (LinExpr.var x)).add (LinExpr.const 1)).terms
        = [([], 1), ([x], 1), ([x, x], 1)] := by
    norm_num [LinExpr.powNat, LinExpr.mul, LinExpr.var, LinExpr.add, LinExpr.const,
      distribAll, distribOne, addTerms, addMono, mergeTerms, sortTerm, termLt, lexLt,
      List.insertionSort, List.orderedInsert]
  refine ⟨hterms, by rw [hterms]; rfl, ?_⟩
  rw [hterms]
  intro p hp
  rcases List.mem_cons.mp hp with h1 | hp2
  · simp [h1]
  rcases List.mem_cons.mp hp2 with h2 | hp3
  · simp [h2]
  rcases List.mem_cons.mp hp3 with h3 | hp4
  · simp [h3]
  · cases hp4

/-- Witness for C10 at x = 0 and the constant entry. -/
theorem no_spurious_terms_witness :
    ((((LinExpr.var 0).powNat 2).add (LinExpr.var 0)).add (LinExpr.const 1)).terms.length = 3
    ∧ (([], 1) : Term × ℚ).2 ≠ 0 :=
  ⟨(no_spurious_terms 0).2.1,
   (no_spurious_terms 0).2.2 ([], 1) (by rw [(no_spurious_terms 0).1]; exact List.mem_cons_self _ _)⟩

end ScipExpr
